import Mathlib

/-!
Verification of the Socratic-Learn conversation core against its
natural-language specification.

The development shallowly embeds the parts of the source that the spec
talks about:

* the Turn Store and Context Windower (`addTurn`, `updateTurn`,
  `getContextString` in `App.tsx`),
* the streaming assembler (`createTurnFromStream` in `App.tsx`),
* the resend truncation (`handleResend` in `App.tsx`),
* the validation scheduler and the agent exchange (`runAgentTurn` in
  `App.tsx`),
* the credential gateway (`withApiKeyRotation` in the Gemini service).

JavaScript strings are modelled as Lean `String`s; the JS builtins used
by the source (`trim`, `startsWith`, `split`, `parseInt`, `join`,
`slice`) are modelled over character lists below, restricted to the
argument shapes the source actually uses (no leading signs or
whitespace for `parseInt`, single-character separators for `split`).
JS objects holding turns are modelled as records of optional fields:
`none` models an absent key, `some v` a present one.
-/

set_option autoImplicit false

namespace SocraticCore

/-- Model of JS `String.prototype.trim`: drop leading and trailing
whitespace characters. -/
def jsTrim (s : String) : String :=
  String.mk (((s.toList.dropWhile Char.isWhitespace).reverse.dropWhile Char.isWhitespace).reverse)

/-- Helper: `startsWithChars p l` is true when `p` occurs at the head of `l`. -/
def startsWithChars : List Char → List Char → Bool
  | [], _ => true
  | _ :: _, [] => false
  | p :: ps, c :: cs => p = c && startsWithChars ps cs

/-- Model of JS `String.prototype.startsWith`. -/
def jsStartsWith (s p : String) : Bool :=
  startsWithChars p.toList s.toList

/-- Model of JS `String.prototype.length` (all strings in the claims are
ASCII, so UTF-16 units coincide with characters). -/
def jsLength (s : String) : Nat :=
  s.toList.length

/-- Model of JS `String.prototype.slice(0, n)`. -/
def strFirst (n : Nat) (s : String) : String :=
  String.mk (s.toList.take n)

/-- Model of JS `String.prototype.slice(-n)`. -/
def strLastN (n : Nat) (s : String) : String :=
  String.mk (s.toList.drop (s.toList.length - n))

/-- Model of JS `Array.prototype.join(sep)`. -/
def jsJoin (sep : String) : List String → String
  | [] => ""
  | [x] => x
  | x :: y :: xs => x ++ sep ++ jsJoin sep (y :: xs)

/-- Model of JS `Array.prototype.slice(-n)` for `n ≥ 1`: the last
`min n length` elements. -/
def takeLastList {α : Type} (n : Nat) (l : List α) : List α :=
  l.drop (l.length - n)

/-- Model of JS `parseInt(s, 10)` on strings without leading whitespace
or sign: parse the longest leading digit run; `none` models `NaN`. -/
def jsParseInt10 (s : String) : Option Nat :=
  let ds := s.toList.takeWhile Char.isDigit
  if ds.isEmpty then none
  else some (ds.foldl (fun n c => 10 * n + (c.toNat - 48)) 0)

/-- Split a character list at every occurrence of `c` (model of JS
`String.prototype.split` with a single-character separator). -/
def splitOnChar (c : Char) : List Char → List (List Char)
  | [] => [[]]
  | x :: xs =>
    let r := splitOnChar c xs
    if x = c then [] :: r
    else
      match r with
      | [] => [[x]]
      | h :: t => (x :: h) :: t

/-- Model of JS `s.split("_")`. -/
def jsSplitUnderscore (s : String) : List String :=
  (splitOnChar '_' s.toList).map String.mk

/-- Pair every element with its index, starting at `n` (model of the
`map((key, index) => ...)` enumeration in the gateway). -/
def zipIdxFrom {α : Type} : Nat → List α → List (α × Nat)
  | _, [] => []
  | n, x :: xs => (x, n) :: zipIdxFrom (n + 1) xs

/-- Concatenation of a delta sequence. -/
def concatDeltas : List String → String
  | [] => ""
  | d :: ds => d ++ concatDeltas ds

/-- Model of JS `Array.prototype.findIndex`, with `none` for `-1`. -/
def jsFindIndex (p : String → Bool) : List String → Option Nat
  | [] => none
  | x :: xs => if p x then some 0 else (jsFindIndex p xs).map (· + 1)

/-!  ## The Turn Store

A turn is a JS object; the fields the claims observe are `role`,
`content`, `isStreaming` and `attachments`.  Fields the claims never
read back from the store (`id`, `modelName`, `feedback`,
`groundingMetadata`, `functionCall`) are omitted from the object model.
`none` models an absent key.  -/

structure TurnObj where
  role : Option String
  content : Option String
  isStreaming : Option Bool
  attachments : Option (List String)
deriving Repr, DecidableEq

def TurnObj.emptyObj : TurnObj :=
  ⟨none, none, none, none⟩

/-- Model of the JS object spread `{...a, ...b}`: keys present in `b`
override keys of `a`. -/
def mergeObj (a b : TurnObj) : TurnObj :=
  ⟨(b.role).orElse (fun _ => a.role),
   (b.content).orElse (fun _ => a.content),
   (b.isStreaming).orElse (fun _ => a.isStreaming),
   (b.attachments).orElse (fun _ => a.attachments)⟩

/-- The `turns` map plus the `turnOrder` array of `App.tsx`, the two
React state cells that make up the Turn Store. The map is an
association list in key-insertion order, like a JS object. -/
structure Store where
  turns : List (String × TurnObj)
  turnOrder : List String
deriving Repr, DecidableEq

/-- Model of JS property read `turns[id]`: `none` models `undefined`. -/
def lookupTurn (ts : List (String × TurnObj)) (id : String) : Option TurnObj :=
  match ts with
  | [] => none
  | (k, v) :: rest => if k = id then some v else lookupTurn rest id

/-- Model of `{...prev, [id]: v}` on a JS object: replace the value in
place when the key exists, append the key otherwise. -/
def setKey (ts : List (String × TurnObj)) (id : String) (v : TurnObj) : List (String × TurnObj) :=
  match ts with
  | [] => [(id, v)]
  | (k, w) :: rest => if k = id then (id, v) :: rest else (k, w) :: setKey rest id v

/-- Function `addTurn` from `App.tsx` (lines 161-166): insert the new turn into
the map and append its id to the order. The uuid is passed explicitly. -/
def addTurn (s : Store) (id : String) (t : TurnObj) : Store :=
  { turns := setKey s.turns id t, turnOrder := s.turnOrder ++ [id] }

/-- Function `updateTurn` from `App.tsx` (lines 168-173):
`{...prev, [id]: {...prev[id], ...updates}}`. When `id` is absent,
`prev[id]` is `undefined` and the spread of `undefined` contributes no
fields, so the merge starts from the empty object. -/
def updateTurn (s : Store) (id : String) (updates : TurnObj) : Store :=
  { s with turns := setKey s.turns id (mergeObj ((lookupTurn s.turns id).getD TurnObj.emptyObj) updates) }

/-- Reading a possibly absent string field inside a JS template
literal: `undefined` prints as the string `undefined`. -/
def jsField (o : Option String) : String :=
  o.getD "undefined"

/-- The per-turn rendering `[role]\ncontent` of `getContextString`. -/
def renderTurn (t : TurnObj) : String :=
  "[" ++ jsField t.role ++ "]\n" ++ jsField t.content

/-- The `contextWindow` setting (`types.ts` line 79). -/
inductive ContextWindow
  | short
  | medium
  | long
deriving Repr, DecidableEq

/-- Table `CONTEXT_WINDOW_SIZES` from `constants.ts` (lines 85-89). -/
def CONTEXT_WINDOW_SIZES : ContextWindow → Nat
  | .short => 4
  | .medium => 8
  | .long => 12

/-- Function `getContextString` from `App.tsx` (lines 220-228): take the last
`windowSize` ids of the order, resolve each against the map,
`filter(Boolean)` drops ids that resolve to `undefined`, render each
remaining turn, join with blank lines. -/
def getContextString (s : Store) (cw : ContextWindow) : String :=
  jsJoin "\n\n"
    ((((takeLastList (CONTEXT_WINDOW_SIZES cw) s.turnOrder).map
        (lookupTurn s.turns)).filterMap id).map renderTurn)

/-!  ## Streaming assembler -/

/-- The `for await` loop of `createTurnFromStream`: append each chunk to
the accumulated content and push the new content into the store. -/
def streamFold (id : String) : List String → Store × String → Store × String
  | [], acc => acc
  | chunk :: rest, (s, full) =>
    let full2 := full ++ chunk
    streamFold id rest (updateTurn s id ⟨none, some full2, none, none⟩, full2)

/-- Function `createTurnFromStream` from `App.tsx` (lines 186-218). The lazy
delta sequence is a finite list; the uuid for the would-be turn is
passed explicitly. Returns the final store, the turn object handed back
to the caller (the object as created, which JS never mutates
afterwards), and `fullContent`. -/
def createTurnFromStream (s : Store) (id : String) (turnData : TurnObj) (deltas : List String) :
    Store × Option TurnObj × String :=
  match deltas with
  | [] => (s, none, "")
  | d :: rest =>
    let created : TurnObj := { turnData with content := some d, isStreaming := some true }
    let s1 := addTurn s id created
    let folded := streamFold id rest (s1, d)
    (updateTurn folded.1 id ⟨none, none, some false, none⟩, some created, folded.2)

/-!  ## Resend truncation -/

/-- The `reduce` in `handleResend` that rebuilds the turn map from the
truncated order: `acc[id] = turns[id]` for each surviving id that still
resolves. -/
def buildTruncatedTurns (turns : List (String × TurnObj)) (order : List String) : List (String × TurnObj) :=
  order.foldl
    (fun acc oid =>
      match lookupTurn turns oid with
      | some t => setKey acc oid t
      | none => acc)
    []

/-- Function `handleResend` from `App.tsx` (lines 558-577): guard that the target
exists and is a user turn, find its index, truncate order and map to
the strict prefix before it, and emit the resend payload
`(content, attachments || [])`. `none` as second component models the
early returns where nothing happens. -/
def handleResend (s : Store) (turnId : String) : Store × Option (Option String × List String) :=
  match lookupTurn s.turns turnId with
  | none => (s, none)
  | some t =>
    if t.role = some "user" then
      match jsFindIndex (fun oid => oid = turnId) s.turnOrder with
      | none => (s, none)
      | some i =>
        let newOrder := s.turnOrder.take i
        ({ turns := buildTruncatedTurns s.turns newOrder, turnOrder := newOrder },
         some (t.content, t.attachments.getD []))
    else (s, none)

/-!  ## Validation scheduler -/

/-- The `validatorFrequency` setting (`types.ts` line 88). -/
inductive ValidatorFrequency
  | disabled
  | every_turn
  | every_3_turns
  | every_5_turns
deriving Repr, DecidableEq

/-- The literal string value each frequency has in the source. -/
def ValidatorFrequency.str : ValidatorFrequency → String
  | .disabled => "disabled"
  | .every_turn => "every_turn"
  | .every_3_turns => "every_3_turns"
  | .every_5_turns => "every_5_turns"

/-- From `App.tsx` line 476:
`parseInt(settings.validatorFrequency.split("_")[1] || "1", 10)`.
An out-of-range index read and the empty string are both falsy, so both
fall back to the string "1". `none` models `NaN` (in particular
`split` of `every_turn` at index 1 is `turn`, which parses to `NaN`). -/
def validatorFrequencyNum (freq : ValidatorFrequency) : Option Nat :=
  let raw := (jsSplitUnderscore freq.str).getD 1 ""
  jsParseInt10 (if raw = "" then "1" else raw)

/-- From `App.tsx` line 477:
`settings.validatorFrequency !== "disabled" && (currentTeacherTurns % validatorFrequencyNum === 0)`.
In JS, `x % NaN` is `NaN` and `NaN === 0` is false, modelled by the
`none` branch. -/
def isValidationTurn (currentTeacherTurns : Nat) (freq : ValidatorFrequency) : Bool :=
  if freq = ValidatorFrequency.disabled then false
  else
    match validatorFrequencyNum freq with
    | none => false
    | some n => decide (currentTeacherTurns % n = 0)

/-!  ## The agent exchange and loop -/

/-- Predicate of `turnOrder.map(id => turns[id]).filter(t => t?.role === "teacher")`
membership test (`App.tsx` lines 424 and 475). -/
def isTeacherEntry (t? : Option TurnObj) : Bool :=
  match t? with
  | some t => decide (t.role = some "teacher")
  | none => false

/-- The teacher-turn count of `App.tsx` lines 424 and 475. -/
def countTeacher (s : Store) : Nat :=
  ((s.turnOrder.map (lookupTurn s.turns)).filter isTeacherEntry).length

/-- Generalisation of `isTeacherEntry` to an arbitrary role. -/
def isRoleEntry (r : String) (t? : Option TurnObj) : Bool :=
  match t? with
  | some t => decide (t.role = some r)
  | none => false

/-- Observer used only in theorem statements: how many turns of the
given role the store holds. -/
def countRole (r : String) (s : Store) : Nat :=
  ((s.turnOrder.map (lookupTurn s.turns)).filter (isRoleEntry r)).length

/-- The settings fields `runAgentTurn` reads. -/
structure AgentSettings where
  contextWindow : ContextWindow
  maxTurns : Nat
  validatorFrequency : ValidatorFrequency
deriving Repr, DecidableEq

/-- Remote responses for one exchange. The student stream, the teacher
call (text plus whether a function call is attached, or a thrown
error), and the validator call are functions of the prompts the
exchange computes; the uuids for the turns the exchange may create are
supplied here as well. -/
structure ExchangeOracle where
  studentDeltas : String → List String
  teacherResult : String → String → Except String (String × Bool)
  validatorResult : String → String → Except String Unit
  qid : String
  tid : String
  vid : String

/-- Outcome of one `runAgentTurn` invocation, with the store it leaves
behind. `finishedState` is the entry guard (`App.tsx` line 425),
`errorPaused` the catch block (line 485), `pausedFunctionCall` the
early return at line 469, `completed` a normal exchange after which the
loop may continue. -/
inductive ExchangeResult
  | finishedState (s : Store)
  | errorPaused (s : Store) (msg : String)
  | pausedFunctionCall (s : Store)
  | completed (s : Store)
deriving Repr

/-- From `App.tsx` line 432: the last turn of the captured state, or `null`
when the order is empty or the last id does not resolve. -/
def lastTurnInState (s : Store) : Option TurnObj :=
  match s.turnOrder.getLast? with
  | none => none
  | some lid => lookupTurn s.turns lid

/-- From `App.tsx` line 437:
`!lastTurnInState || ["teacher","validator","starter"].includes(lastTurnInState.role)`. -/
def askBranchCond (s : Store) : Bool :=
  match lastTurnInState s with
  | none => true
  | some t =>
    decide (t.role = some "teacher") || decide (t.role = some "validator") ||
      decide (t.role = some "starter")

/-- Lines 437-458 of `runAgentTurn`: produce the question turn. Either
stream a new student question (raising when the stream is empty), or
reuse the pending last turn and compute the context excluding it. -/
def questionPhase (settings : AgentSettings) (o : ExchangeOracle) (s : Store) :
    Except String (Store × TurnObj × String) :=
  if askBranchCond s then
    let contextForTeacher := getContextString s settings.contextWindow
    match createTurnFromStream s o.qid ⟨some "student", none, none, none⟩
        (o.studentDeltas contextForTeacher) with
    | (_, none, _) => .error "Student model failed to generate a response."
    | (s1, some turn, _) => .ok (s1, turn, contextForTeacher)
  else
    match lastTurnInState s with
    | none => .error "Student model failed to generate a response."
    | some t =>
      let windowSize := CONTEXT_WINDOW_SIZES settings.contextWindow
      let contextForTeacher :=
        jsJoin "\n\n"
          ((((takeLastList windowSize s.turnOrder.dropLast).map
              (lookupTurn s.turns)).filterMap id).map renderTurn)
      .ok (s, t, contextForTeacher)

/-- Lines 460-483 of `runAgentTurn`: placeholder answerer turn, teacher
call, function-call early exit, scheduler consultation and optional
validator turn. `staleTeacherCount` is the teacher count the closure
captured at entry (line 475 reads the pre-exchange state). -/
def exchangeTail (settings : AgentSettings) (o : ExchangeOracle) (staleTeacherCount : Nat)
    (s1 : Store) (questionTurn : TurnObj) (contextForTeacher : String) : ExchangeResult :=
  let s2 := addTurn s1 o.tid ⟨some "teacher", some "...", some true, none⟩
  match o.teacherResult contextForTeacher (jsField questionTurn.content) with
  | .error msg => .errorPaused s2 msg
  | .ok (text, hasFunctionCall) =>
    let s3 := updateTurn s2 o.tid ⟨none, some text, some false, none⟩
    if hasFunctionCall then .pausedFunctionCall s3
    else
      if isValidationTurn staleTeacherCount settings.validatorFrequency then
        let s4 := addTurn s3 o.vid ⟨some "validator", some "Validating...", none, none⟩
        match o.validatorResult (jsField questionTurn.content) text with
        | .error msg => .errorPaused s4 msg
        | .ok _ => .completed (updateTurn s4 o.vid ⟨none, some "", none, none⟩)
      else .completed s3

/-- Function `runAgentTurn` from `App.tsx` (lines 420-491).

The React state cells `turns` and `turnOrder` are captured by the
callback closure when the invocation starts; `setTurns`/`setTurnOrder`
never mutate those captured bindings. The model therefore threads the
evolving store through the calls that write it, but reads
`currentTeacherTurns` (line 475) from the store `s` as it was at entry,
exactly as the closure does. -/
def runAgentTurnModel (settings : AgentSettings) (o : ExchangeOracle) (s : Store) : ExchangeResult :=
  if settings.maxTurns ≤ countTeacher s then .finishedState s
  else
    match questionPhase settings o s with
    | .error msg => .errorPaused s msg
    | .ok (s1, questionTurn, contextForTeacher) =>
      exchangeTail settings o (countTeacher s) s1 questionTurn contextForTeacher

/-- Outcome of the auto-continue loop. -/
inductive LoopResult
  | finishedState (s : Store)
  | stopped (s : Store)
  | outOfFuel
deriving Repr

/-- The `agentLoop` of the central effect (`App.tsx` lines 505-526)
with `autoContinueAgent` on and no user cancellation: rerun the
exchange until it reports `finished` or leaves `running_auto`. The
exchange counter `k` chooses the oracle for each exchange; `fuel`
bounds the number of iterations. -/
def agentLoop (settings : AgentSettings) (oracles : Nat → ExchangeOracle) :
    Nat → Nat → Store → LoopResult
  | 0, _, _ => .outOfFuel
  | fuel + 1, k, s =>
    match runAgentTurnModel settings (oracles k) s with
    | .finishedState s' => .finishedState s'
    | .completed s' => agentLoop settings oracles fuel (k + 1) s'
    | .pausedFunctionCall s' => .stopped s'
    | .errorPaused s' _ => .stopped s'

/-!  ## Credential gateway -/

/-- Type `ApiKeyStatus` from `types.ts` line 40. -/
inductive ApiKeyStatus
  | valid
  | exhausted
deriving Repr, DecidableEq

/-- The two error classes the gateway throws: `ApiKeyError` and plain
`Error`, each carrying its message. -/
inductive RotationError
  | apiKeyError (msg : String)
  | jsError (msg : String)
deriving Repr, DecidableEq

/-- Result of `withApiKeyRotation` together with the observable trace of
remote attempts: the `(key, index)` pairs for which `apiCall` was
actually invoked, in order. -/
structure RotationOutcome (T : Type) where
  result : Except RotationError T
  attempts : List (String × Nat)
deriving Repr

def noKeyMsg : String :=
  "No API Key has been configured. Please go to Settings, add a valid Gemini API key, and apply your changes."

def allInvalidMsg : String :=
  "All configured API keys failed client-side validation and were skipped. Please check your keys in Settings."

def allFailedMsg : String :=
  "All available API keys failed. Please check your keys in Settings and your network connection."

/-- The key snippet of the final error: first 4 and last 4 characters
when the key is longer than 8 characters. -/
def redactKey (k : String) : String :=
  if 8 < jsLength k then strFirst 4 k ++ "..." ++ strLastN 4 k else k

/-- The message of the error thrown when the last remote attempt
failed. -/
def rotationFailMsg (idx : Nat) (key msg : String) : String :=
  "API call failed using key at index " ++ toString idx ++ " (key: " ++ redactKey key ++
    "). Raw Error: " ++ msg

/-- The client-side format check (gateway line 43):
`key.length < 30 || !key.startsWith("AIza")` means the key is skipped. -/
def keyFailsValidation (key : String) : Bool :=
  decide (jsLength key < 30) || !jsStartsWith key "AIza"

/-- The `for` loop over `keysToTry` plus the code after it. Arguments:
remaining candidates, `lastError` with its key info, the count of
validation skips so far, the total candidate count, and the attempts
recorded so far. -/
def rotationLoop {T : Type} (apiCall : String → Except String T) :
    List (String × Nat) → Option (String × Nat × String) → Nat → Nat → List (String × Nat) →
      RotationOutcome T
  | [], lastErr, vCount, total, acc =>
    match lastErr with
    | some (key, idx, msg) => ⟨.error (.jsError (rotationFailMsg idx key msg)), acc⟩
    | none =>
      if 0 < vCount ∧ vCount = total then ⟨.error (.apiKeyError allInvalidMsg), acc⟩
      else ⟨.error (.jsError allFailedMsg), acc⟩
  | (key, idx) :: rest, lastErr, vCount, total, acc =>
    if keyFailsValidation key then rotationLoop apiCall rest lastErr (vCount + 1) total acc
    else
      match apiCall key with
      | .ok v => ⟨.ok v, acc ++ [(key, idx)]⟩
      | .error e => rotationLoop apiCall rest (some (key, idx, e)) vCount total (acc ++ [(key, idx)])

/-- Function `withApiKeyRotation` from the Gemini service (lines 24-80). The
`apiKeyStatuses` parameter is kept for signature compatibility and
never read, exactly as in the source. `apiCall` maps the credential the
client was built with to the outcome of the remote request. -/
def withApiKeyRotation {T : Type} (apiKeys : List String)
    (apiKeyStatuses : Option (List ApiKeyStatus)) (apiCall : String → Except String T) :
    RotationOutcome T :=
  let keysToTry := (zipIdxFrom 0 apiKeys).filter (fun p => p.1 != "" && jsTrim p.1 != "")
  if keysToTry.isEmpty then ⟨.error (.apiKeyError noKeyMsg), []⟩
  else rotationLoop apiCall keysToTry none 0 keysToTry.length []

/-!  ## Basic lemmas about the store primitives -/

theorem lookup_setKey_self (ts : List (String × TurnObj)) (id : String) (v : TurnObj) :
    lookupTurn (setKey ts id v) id = some v := by
  induction ts with
  | nil => simp [setKey, lookupTurn]
  | cons p rest ih =>
    obtain ⟨k, w⟩ := p
    by_cases h : k = id
    · simp [setKey, h, lookupTurn]
    · simp [setKey, h, lookupTurn, ih]

theorem lookup_setKey_other (ts : List (String × TurnObj)) (id x : String) (v : TurnObj)
    (h : x ≠ id) : lookupTurn (setKey ts id v) x = lookupTurn ts x := by
  induction ts with
  | nil =>
    have hix : ¬(id = x) := fun hh => h hh.symm
    simp [setKey, lookupTurn, hix]
  | cons p rest ih =>
    obtain ⟨k, w⟩ := p
    by_cases hk : k = id
    · subst hk
      have hxk : ¬(k = x) := fun hh => h hh.symm
      simp [setKey, lookupTurn, hxk]
    · by_cases hx : k = x
      · subst hx
        simp [setKey, hk, lookupTurn]
      · simp [setKey, hk, lookupTurn, hx, ih]

theorem mergeObj_emptyObj (u : TurnObj) : mergeObj TurnObj.emptyObj u = u := by
  obtain ⟨r, c, i, a⟩ := u
  cases r <;> cases c <;> cases i <;> cases a <;> rfl

theorem mergeObj_content (t : TurnObj) (c : String) :
    mergeObj t ⟨none, some c, none, none⟩ = { t with content := some c } := rfl

theorem mergeObj_role (t : TurnObj) (u : TurnObj) (h : u.role = none) :
    (mergeObj t u).role = t.role := by
  obtain ⟨r, c, i, a⟩ := u
  cases r with
  | none => rfl
  | some x => simp at h

theorem updateTurn_turnOrder (s : Store) (id : String) (u : TurnObj) :
    (updateTurn s id u).turnOrder = s.turnOrder := rfl

theorem lookup_updateTurn_self (s : Store) (id : String) (u t : TurnObj)
    (h : lookupTurn s.turns id = some t) :
    lookupTurn (updateTurn s id u).turns id = some (mergeObj t u) := by
  simp [updateTurn, h, lookup_setKey_self]

theorem lookup_updateTurn_absent (s : Store) (id : String) (u : TurnObj)
    (h : lookupTurn s.turns id = none) :
    lookupTurn (updateTurn s id u).turns id = some u := by
  simp [updateTurn, h, lookup_setKey_self, mergeObj_emptyObj]

theorem lookup_updateTurn_other (s : Store) (id x : String) (u : TurnObj) (h : x ≠ id) :
    lookupTurn (updateTurn s id u).turns x = lookupTurn s.turns x := by
  simp [updateTurn, lookup_setKey_other _ _ _ _ h]

theorem addTurn_turnOrder (s : Store) (id : String) (t : TurnObj) :
    (addTurn s id t).turnOrder = s.turnOrder ++ [id] := rfl

theorem lookup_addTurn_self (s : Store) (id : String) (t : TurnObj) :
    lookupTurn (addTurn s id t).turns id = some t := by
  simp [addTurn, lookup_setKey_self]

theorem lookup_addTurn_other (s : Store) (id x : String) (t : TurnObj) (h : x ≠ id) :
    lookupTurn (addTurn s id t).turns x = lookupTurn s.turns x := by
  simp [addTurn, lookup_setKey_other _ _ _ _ h]

/-!  ## Counting lemmas -/

theorem isTeacherEntry_eq (t? : Option TurnObj) : isTeacherEntry t? = isRoleEntry "teacher" t? := by
  cases t? <;> rfl

theorem countTeacher_eq_countRole (s : Store) : countTeacher s = countRole "teacher" s := by
  unfold countTeacher countRole
  rw [List.filter_congr (fun x _ => isTeacherEntry_eq x)]

theorem countRole_congr_list (r : String) (ts1 ts2 : List (String × TurnObj))
    (order : List String)
    (h : ∀ x ∈ order, isRoleEntry r (lookupTurn ts1 x) = isRoleEntry r (lookupTurn ts2 x)) :
    ((order.map (lookupTurn ts1)).filter (isRoleEntry r)).length =
      ((order.map (lookupTurn ts2)).filter (isRoleEntry r)).length := by
  induction order with
  | nil => rfl
  | cons a l ih =>
    simp only [List.map_cons, List.filter_cons]
    rw [h a (by simp)]
    have ihl := ih (fun x hx => h x (by simp [hx]))
    cases isRoleEntry r (lookupTurn ts2 a) <;> simp [ihl]

theorem countRole_updateTurn (r : String) (s : Store) (id : String) (u : TurnObj)
    (h : u.role = none) : countRole r (updateTurn s id u) = countRole r s := by
  unfold countRole
  rw [updateTurn_turnOrder]
  apply countRole_congr_list
  intro x _
  by_cases hx : x = id
  · subst hx
    cases hl : lookupTurn s.turns x with
    | none =>
      rw [lookup_updateTurn_absent s x u hl]
      simp [isRoleEntry, h]
    | some t =>
      rw [lookup_updateTurn_self s x u t hl]
      simp [isRoleEntry, mergeObj_role t u h]
  · rw [lookup_updateTurn_other s id x u hx]

theorem countRole_extend (r : String) (s s2 : Store) (id : String) (t : TurnObj)
    (horder : s2.turnOrder = s.turnOrder ++ [id])
    (hid : lookupTurn s2.turns id = some t)
    (hoth : ∀ x, x ≠ id → lookupTurn s2.turns x = lookupTurn s.turns x)
    (hmem : id ∉ s.turnOrder) :
    countRole r s2 = countRole r s + (if t.role = some r then 1 else 0) := by
  unfold countRole
  rw [horder, List.map_append, List.filter_append, List.length_append]
  have h1 : ((s.turnOrder.map (lookupTurn s2.turns)).filter (isRoleEntry r)).length =
      ((s.turnOrder.map (lookupTurn s.turns)).filter (isRoleEntry r)).length := by
    apply countRole_congr_list
    intro x hx
    rw [hoth x (fun he => hmem (he ▸ hx))]
  rw [h1]
  congr 1
  simp only [List.map_cons, List.map_nil, List.filter, hid]
  simp only [isRoleEntry]
  by_cases hr : t.role = some r <;> simp [hr]

/-!  ## Streaming assembler lemmas -/

theorem streamFold_turnOrder (id : String) (rest : List String) :
    ∀ (s : Store) (full : String), (streamFold id rest (s, full)).1.turnOrder = s.turnOrder := by
  induction rest with
  | nil => intro s full; rfl
  | cons chunk rest ih =>
    intro s full
    show (streamFold id rest (updateTurn s id ⟨none, some (full ++ chunk), none, none⟩,
      full ++ chunk)).1.turnOrder = s.turnOrder
    rw [ih]
    rfl

theorem streamFold_snd (id : String) (rest : List String) :
    ∀ (s : Store) (full : String), (streamFold id rest (s, full)).2 = full ++ concatDeltas rest := by
  induction rest with
  | nil => intro s full; simp [streamFold, concatDeltas, String.append_empty]
  | cons chunk rest ih =>
    intro s full
    show (streamFold id rest (updateTurn s id ⟨none, some (full ++ chunk), none, none⟩,
      full ++ chunk)).2 = full ++ concatDeltas (chunk :: rest)
    rw [ih, concatDeltas, String.append_assoc]

theorem streamFold_lookup_self (id : String) (rest : List String) :
    ∀ (s : Store) (full : String) (t : TurnObj), lookupTurn s.turns id = some t →
      t.content = some full →
      lookupTurn (streamFold id rest (s, full)).1.turns id =
        some { t with content := some (full ++ concatDeltas rest) } := by
  induction rest with
  | nil =>
    intro s full t ht hc
    obtain ⟨r, c, i, a⟩ := t
    have hc2 : c = some full := hc
    subst hc2
    simp only [streamFold, concatDeltas, String.append_empty]
    exact ht
  | cons chunk rest ih =>
    intro s full t ht hc
    show lookupTurn (streamFold id rest (updateTurn s id ⟨none, some (full ++ chunk), none, none⟩,
      full ++ chunk)).1.turns id = _
    have hstep : lookupTurn (updateTurn s id ⟨none, some (full ++ chunk), none, none⟩).turns id =
        some { t with content := some (full ++ chunk) } := by
      rw [lookup_updateTurn_self s id _ t ht, mergeObj_content]
    have := ih (updateTurn s id ⟨none, some (full ++ chunk), none, none⟩) (full ++ chunk)
      { t with content := some (full ++ chunk) } hstep rfl
    rw [this, concatDeltas, String.append_assoc]

theorem streamFold_lookup_other (id : String) (rest : List String) :
    ∀ (s : Store) (full : String) (x : String), x ≠ id →
      lookupTurn (streamFold id rest (s, full)).1.turns x = lookupTurn s.turns x := by
  induction rest with
  | nil => intro s full x _; rfl
  | cons chunk rest ih =>
    intro s full x hx
    show lookupTurn (streamFold id rest (updateTurn s id ⟨none, some (full ++ chunk), none, none⟩,
      full ++ chunk)).1.turns x = _
    rw [ih _ _ x hx, lookup_updateTurn_other s id x _ hx]

theorem mergeObj_isStreaming (t : TurnObj) (b : Bool) :
    mergeObj t ⟨none, none, some b, none⟩ = { t with isStreaming := some b } := rfl

theorem createTurnFromStream_cons (s : Store) (id : String) (td : TurnObj) (d : String)
    (rest : List String) :
    (createTurnFromStream s id td (d :: rest)).1.turnOrder = s.turnOrder ++ [id] ∧
    (createTurnFromStream s id td (d :: rest)).2.1 =
      some { td with content := some d, isStreaming := some true } ∧
    (createTurnFromStream s id td (d :: rest)).2.2 = concatDeltas (d :: rest) ∧
    lookupTurn (createTurnFromStream s id td (d :: rest)).1.turns id =
      some { td with content := some (concatDeltas (d :: rest)), isStreaming := some false } ∧
    (∀ x, x ≠ id → lookupTurn (createTurnFromStream s id td (d :: rest)).1.turns x =
      lookupTurn s.turns x) := by
  have created_def : ({ td with content := some d, isStreaming := some true } : TurnObj).content
      = some d := rfl
  constructor
  · show (updateTurn (streamFold id rest (addTurn s id _, d)).1 id _).turnOrder = _
    rw [updateTurn_turnOrder, streamFold_turnOrder, addTurn_turnOrder]
  constructor
  · rfl
  constructor
  · show (streamFold id rest (addTurn s id _, d)).2 = _
    rw [streamFold_snd]
    rfl
  constructor
  · show lookupTurn (updateTurn (streamFold id rest
      (addTurn s id { td with content := some d, isStreaming := some true }, d)).1 id
        ⟨none, none, some false, none⟩).turns id = _
    have h1 : lookupTurn (addTurn s id
        { td with content := some d, isStreaming := some true }).turns id =
        some { td with content := some d, isStreaming := some true } :=
      lookup_addTurn_self s id _
    have h2 := streamFold_lookup_self id rest
      (addTurn s id { td with content := some d, isStreaming := some true }) d
      { td with content := some d, isStreaming := some true } h1 created_def
    rw [lookup_updateTurn_self _ id _ _ h2, mergeObj_isStreaming]
    rfl
  · intro x hx
    show lookupTurn (updateTurn (streamFold id rest
      (addTurn s id { td with content := some d, isStreaming := some true }, d)).1 id
        ⟨none, none, some false, none⟩).turns x = _
    rw [lookup_updateTurn_other _ id x _ hx, streamFold_lookup_other id rest _ d x hx,
      lookup_addTurn_other s id x _ hx]

/-!  ## Resend lemmas -/

theorem lookup_buildTruncated_aux (turns : List (String × TurnObj)) :
    ∀ (order : List String) (acc : List (String × TurnObj)) (x : String),
      lookupTurn (order.foldl
        (fun acc oid =>
          match lookupTurn turns oid with
          | some t => setKey acc oid t
          | none => acc) acc) x =
      if x ∈ order ∧ (lookupTurn turns x).isSome then lookupTurn turns x
      else lookupTurn acc x := by
  intro order
  induction order with
  | nil => intro acc x; simp
  | cons a l ih =>
    intro acc x
    rw [List.foldl_cons, ih]
    by_cases hxa : x = a
    · subst hxa
      cases hl : lookupTurn turns x with
      | none => simp [hl]
      | some t =>
        by_cases hmem : x ∈ l ∧ (lookupTurn turns x).isSome
        · simp [hmem, hl]
        · simp only [hl, Option.isSome_some, and_true] at hmem ⊢
          simp [hmem, lookup_setKey_self, hl]
    · have hiff : (x ∈ a :: l ∧ (lookupTurn turns x).isSome) ↔
          (x ∈ l ∧ (lookupTurn turns x).isSome) := by
        constructor
        · rintro ⟨hm, hs⟩
          rcases List.mem_cons.mp hm with h1 | h1
          · exact absurd h1 hxa
          · exact ⟨h1, hs⟩
        · rintro ⟨hm, hs⟩
          exact ⟨List.mem_cons_of_mem a hm, hs⟩
      rw [if_congr hiff rfl rfl]
      by_cases hmem : x ∈ l ∧ (lookupTurn turns x).isSome
      · simp [hmem]
      · simp only [hmem, if_neg, if_false]
        cases hl : lookupTurn turns a with
        | none => rfl
        | some t => exact lookup_setKey_other acc a x t hxa

theorem lookup_buildTruncatedTurns (turns : List (String × TurnObj)) (order : List String)
    (x : String) :
    lookupTurn (buildTruncatedTurns turns order) x =
      if x ∈ order then lookupTurn turns x else none := by
  unfold buildTruncatedTurns
  rw [lookup_buildTruncated_aux]
  by_cases hmem : x ∈ order
  · cases hl : lookupTurn turns x with
    | none => simp [hmem, hl, lookupTurn]
    | some t => simp [hmem, hl, lookupTurn]
  · simp [hmem, lookupTurn]

theorem jsFindIndex_take (p : String → Bool) :
    ∀ (l : List String) (i : Nat), jsFindIndex p l = some i →
      ∀ x ∈ l.take i, p x = false := by
  intro l
  induction l with
  | nil => intro i _ x hx; simp at hx
  | cons a l ih =>
    intro i hi x hx
    by_cases hpa : p a
    · simp [jsFindIndex, hpa] at hi
      subst hi
      simp at hx
    · simp only [jsFindIndex, hpa, if_false, Bool.false_eq_true] at hi
      rcases hj : jsFindIndex p l with _ | j
      · rw [hj] at hi; simp at hi
      · rw [hj] at hi
        have hi2 : i = j + 1 := by simpa using hi.symm
        subst hi2
        rw [List.take_succ_cons] at hx
        rcases List.mem_cons.mp hx with h1 | h1
        · subst h1
          exact Bool.not_eq_true _ ▸ (by simpa using hpa)
        · exact ih j hj x h1

/-!  ## Context window lemmas -/

theorem takeLastList_length {α : Type} (n : Nat) (l : List α) :
    (takeLastList n l).length = min n l.length := by
  simp only [takeLastList, List.length_drop]
  omega

theorem takeLastList_suffix {α : Type} (n : Nat) (l : List α) :
    ∃ front, l = front ++ takeLastList n l :=
  ⟨l.take (l.length - n), (List.take_append_drop _ l).symm⟩

theorem mem_of_mem_takeLastList {α : Type} (n : Nat) (l : List α) (x : α)
    (h : x ∈ takeLastList n l) : x ∈ l := by
  obtain ⟨front, hf⟩ := takeLastList_suffix n l
  rw [hf]
  exact List.mem_append_right front h

theorem filterMap_lookup_total (f : String → Option TurnObj) :
    ∀ (ids : List String), (∀ id ∈ ids, (f id).isSome) →
      (ids.map f).filterMap id = ids.map (fun id => (f id).getD TurnObj.emptyObj) := by
  intro ids
  induction ids with
  | nil => intro _; rfl
  | cons a l ih =>
    intro h
    have ha := h a (by simp)
    rcases hfa : f a with _ | t
    · rw [hfa] at ha; simp at ha
    · simp only [List.map_cons, List.filterMap_cons, hfa, id, Option.getD_some]
      rw [ih (fun x hx => h x (by simp [hx]))]

/-!  ## Credential gateway lemmas -/

/-- The trim-survival filter applied to build `keysToTry`. -/
def trimPass (k : String) : Bool :=
  k != "" && jsTrim k != ""

/-- A credential that survives trimming and passes the local format
check: the well-formed keys of the spec. -/
def wellFormedKey (k : String) : Bool :=
  trimPass k && !keyFailsValidation k

/-- The candidates of `keysToTry` that pass the local format check,
i.e. exactly the credentials a remote call may be attempted with. -/
def validCandidates (keys : List String) : List (String × Nat) :=
  ((zipIdxFrom 0 keys).filter (fun p => trimPass p.1)).filter (fun p => !keyFailsValidation p.1)

theorem zipIdxFrom_append {α : Type} (l1 l2 : List α) :
    ∀ n, zipIdxFrom n (l1 ++ l2) = zipIdxFrom n l1 ++ zipIdxFrom (n + l1.length) l2 := by
  induction l1 with
  | nil => intro n; simp [zipIdxFrom]
  | cons a l ih =>
    intro n
    show (a, n) :: zipIdxFrom (n + 1) (l ++ l2) =
      (a, n) :: (zipIdxFrom (n + 1) l ++ zipIdxFrom (n + (a :: l).length) l2)
    rw [ih (n + 1)]
    have harith : n + 1 + l.length = n + (a :: l).length := by
      simp only [List.length_cons]
      omega
    rw [harith]

theorem mem_zipIdxFrom {α : Type} (l : List α) :
    ∀ (n : Nat) (p : α × Nat), p ∈ zipIdxFrom n l → p.1 ∈ l := by
  induction l with
  | nil => intro n p hp; simp [zipIdxFrom] at hp
  | cons a l ih =>
    intro n p hp
    simp only [zipIdxFrom, List.mem_cons] at hp
    rcases hp with h1 | h1
    · subst h1; simp
    · exact List.mem_cons_of_mem a (ih (n + 1) p h1)

theorem zipIdxFrom_mem_of_mem {α : Type} (l : List α) :
    ∀ (n : Nat) (x : α), x ∈ l → ∃ i, (x, i) ∈ zipIdxFrom n l := by
  induction l with
  | nil => intro n x hx; simp at hx
  | cons a l ih =>
    intro n x hx
    rcases List.mem_cons.mp hx with h1 | h1
    · exact ⟨n, by simp [zipIdxFrom, h1]⟩
    · obtain ⟨i, hi⟩ := ih (n + 1) x h1
      exact ⟨i, by simp [zipIdxFrom, hi]⟩

theorem rotationLoop_cons_skip {T : Type} (apiCall : String → Except String T)
    (key : String) (idx : Nat) (rest : List (String × Nat))
    (le : Option (String × Nat × String)) (vC total : Nat) (acc : List (String × Nat))
    (hk : keyFailsValidation key = true) :
    rotationLoop apiCall ((key, idx) :: rest) le vC total acc =
      rotationLoop apiCall rest le (vC + 1) total acc := by
  rw [rotationLoop, if_pos hk]

theorem rotationLoop_cons_ok {T : Type} (apiCall : String → Except String T)
    (key : String) (idx : Nat) (rest : List (String × Nat))
    (le : Option (String × Nat × String)) (vC total : Nat) (acc : List (String × Nat))
    (v : T) (hk : keyFailsValidation key = false) (hcall : apiCall key = .ok v) :
    rotationLoop apiCall ((key, idx) :: rest) le vC total acc =
      ⟨.ok v, acc ++ [(key, idx)]⟩ := by
  rw [rotationLoop, if_neg (by simp [hk]), hcall]

theorem rotationLoop_cons_fail {T : Type} (apiCall : String → Except String T)
    (key : String) (idx : Nat) (rest : List (String × Nat))
    (le : Option (String × Nat × String)) (vC total : Nat) (acc : List (String × Nat))
    (e : String) (hk : keyFailsValidation key = false) (hcall : apiCall key = .error e) :
    rotationLoop apiCall ((key, idx) :: rest) le vC total acc =
      rotationLoop apiCall rest (some (key, idx, e)) vC total (acc ++ [(key, idx)]) := by
  rw [rotationLoop, if_neg (by simp [hk]), hcall]

theorem rotationLoop_nil_err {T : Type} (apiCall : String → Except String T)
    (key : String) (idx : Nat) (msg : String) (vC total : Nat) (acc : List (String × Nat)) :
    rotationLoop apiCall [] (some (key, idx, msg)) vC total acc =
      ⟨.error (.jsError (rotationFailMsg idx key msg)), acc⟩ := rfl

theorem rotationLoop_skips {T : Type} (apiCall : String → Except String T) :
    ∀ (cands rest : List (String × Nat)) (le : Option (String × Nat × String))
      (vC total : Nat) (acc : List (String × Nat)),
      (∀ p ∈ cands, keyFailsValidation p.1 = true) →
      rotationLoop apiCall (cands ++ rest) le vC total acc =
        rotationLoop apiCall rest le (vC + cands.length) total acc := by
  intro cands
  induction cands with
  | nil => intro rest le vC total acc _; simp
  | cons p cands ih =>
    intro rest le vC total acc h
    obtain ⟨key, idx⟩ := p
    have hk : keyFailsValidation key = true := h (key, idx) (by simp)
    show rotationLoop apiCall ((key, idx) :: (cands ++ rest)) le vC total acc = _
    rw [rotationLoop, if_pos hk, ih rest le (vC + 1) total acc
      (fun q hq => h q (List.mem_cons_of_mem _ hq))]
    congr 1
    simp [List.length_cons]
    omega

theorem rotationLoop_allfail {T : Type} (apiCall : String → Except String T)
    (emsg : String → String) :
    ∀ (cands : List (String × Nat)) (le : Option (String × Nat × String))
      (vC total : Nat) (acc : List (String × Nat)),
      (∀ p ∈ cands, keyFailsValidation p.1 = false → apiCall p.1 = .error (emsg p.1)) →
      (cands.filter (fun p => !keyFailsValidation p.1)) ≠ [] →
      ∃ lk li, (cands.filter (fun p => !keyFailsValidation p.1)).getLast? = some (lk, li) ∧
        rotationLoop apiCall cands le vC total acc =
          ⟨.error (.jsError (rotationFailMsg li lk (emsg lk))),
            acc ++ cands.filter (fun p => !keyFailsValidation p.1)⟩ := by
  intro cands
  induction cands with
  | nil => intro le vC total acc _ hne; simp at hne
  | cons p cands ih =>
    intro le vC total acc h hne
    obtain ⟨key, idx⟩ := p
    by_cases hk : keyFailsValidation key = true
    · have hfilter : ((key, idx) :: cands).filter (fun p => !keyFailsValidation p.1) =
          cands.filter (fun p => !keyFailsValidation p.1) := by
        simp [List.filter_cons, hk]
      rw [hfilter] at hne ⊢
      obtain ⟨lk, li, h1, h2⟩ := ih le (vC + 1) total acc
        (fun q hq hv => h q (List.mem_cons_of_mem _ hq) hv) hne
      refine ⟨lk, li, h1, ?_⟩
      rw [rotationLoop_cons_skip apiCall key idx cands le vC total acc hk, h2]
    · have hk2 : keyFailsValidation key = false := by
        cases hkk : keyFailsValidation key
        · rfl
        · exact absurd hkk hk
      have hcall : apiCall key = .error (emsg key) := h (key, idx) (by simp) hk2
      have hfilter : ((key, idx) :: cands).filter (fun p => !keyFailsValidation p.1) =
          (key, idx) :: cands.filter (fun p => !keyFailsValidation p.1) := by
        simp [List.filter_cons, hk2]
      by_cases hrest : cands.filter (fun p => !keyFailsValidation p.1) = []
      · have hallskip : ∀ q ∈ cands, keyFailsValidation q.1 = true := by
          intro q hq
          cases hv : keyFailsValidation q.1 with
          | true => rfl
          | false =>
            exfalso
            have hq2 : q ∈ cands.filter (fun p => !keyFailsValidation p.1) :=
              List.mem_filter.mpr ⟨hq, by simp [hv]⟩
            rw [hrest] at hq2
            simp at hq2
        refine ⟨key, idx, ?_, ?_⟩
        · rw [hfilter, hrest]
          rfl
        · rw [rotationLoop_cons_fail apiCall key idx cands le vC total acc (emsg key) hk2 hcall]
          have hskip := rotationLoop_skips apiCall cands [] (some (key, idx, emsg key)) vC total
            (acc ++ [(key, idx)]) hallskip
          rw [List.append_nil] at hskip
          rw [hskip, rotationLoop_nil_err, hfilter, hrest]
      · obtain ⟨lk, li, h1, h2⟩ := ih (some (key, idx, emsg key)) vC total
          (acc ++ [(key, idx)]) (fun q hq hv => h q (List.mem_cons_of_mem _ hq) hv) hrest
        refine ⟨lk, li, ?_, ?_⟩
        · rw [hfilter]
          rcases hcs : cands.filter (fun p => !keyFailsValidation p.1) with _ | ⟨q, qs⟩
          · exact absurd hcs hrest
          · rw [hcs]
            rw [hcs] at h1
            rw [List.getLast?_cons_cons]
            exact h1
        · rw [rotationLoop_cons_fail apiCall key idx cands le vC total acc (emsg key) hk2 hcall,
            h2, hfilter, List.append_assoc]
          rfl

/-!  ## Agent exchange lemmas -/

theorem askBranchCond_false_last (s : Store) (h : askBranchCond s = false) :
    ∃ t, lastTurnInState s = some t := by
  unfold askBranchCond at h
  cases hl : lastTurnInState s with
  | none => rw [hl] at h; simp at h
  | some t => exact ⟨t, rfl⟩

theorem questionPhase_spec (settings : AgentSettings) (o : ExchangeOracle) (s : Store)
    (hq1 : o.qid ∉ s.turnOrder)
    (hdeltas : ∀ c, o.studentDeltas c ≠ []) :
    ∃ s1 q ctx, questionPhase settings o s = .ok (s1, q, ctx) ∧
      countRole "teacher" s1 = countRole "teacher" s ∧
      (∃ extra, s1.turnOrder = s.turnOrder ++ extra ∧ ∀ x ∈ extra, x = o.qid) ∧
      (∀ x, x ≠ o.qid → lookupTurn s1.turns x = lookupTurn s.turns x) := by
  by_cases hask : askBranchCond s = true
  · have hne := hdeltas (getContextString s settings.contextWindow)
    obtain ⟨d, rest, hsplit⟩ := List.exists_cons_of_ne_nil hne
    obtain ⟨hc1, hc2, hc3, hc4, hc5⟩ :=
      createTurnFromStream_cons s o.qid ⟨some "student", none, none, none⟩ d rest
    rcases hres : createTurnFromStream s o.qid ⟨some "student", none, none, none⟩ (d :: rest)
      with ⟨s1, oturn, full⟩
    rw [hres] at hc1 hc2 hc3 hc4 hc5
    simp only at hc1 hc2 hc3 hc4 hc5
    subst hc2
    refine ⟨s1,
      ⟨some "student", some d, some true, none⟩,
      getContextString s settings.contextWindow, ?_, ?_, ?_, ?_⟩
    · unfold questionPhase
      rw [if_pos hask]
      show (match createTurnFromStream s o.qid ⟨some "student", none, none, none⟩
          (o.studentDeltas (getContextString s settings.contextWindow)) with
        | (_, none, _) => Except.error "Student model failed to generate a response."
        | (s1, some turn, _) =>
          Except.ok (s1, turn, getContextString s settings.contextWindow)) = _
      rw [hsplit, hres]
    · have := countRole_extend "teacher" s s1 o.qid
        ⟨some "student", some (concatDeltas (d :: rest)), some false, none⟩
        hc1 hc4 hc5 hq1
      simpa using this
    · exact ⟨[o.qid], hc1, by simp⟩
    · exact hc5
  · have hask2 : askBranchCond s = false := by
      cases ha : askBranchCond s
      · rfl
      · exact absurd ha hask
    obtain ⟨t, hl⟩ := askBranchCond_false_last s hask2
    refine ⟨s, t,
      jsJoin "\n\n"
        ((((takeLastList (CONTEXT_WINDOW_SIZES settings.contextWindow)
            s.turnOrder.dropLast).map (lookupTurn s.turns)).filterMap id).map renderTurn),
      ?_, rfl, ⟨[], by simp, by simp⟩, fun x _ => rfl⟩
    unfold questionPhase
    rw [if_neg (by simp [hask2]), hl]

theorem exchangeTail_completes (settings : AgentSettings) (o : ExchangeOracle)
    (stale : Nat) (s1 : Store) (q : TurnObj) (ctx : String)
    (hteacher : ∀ c qq, ∃ txt, o.teacherResult c qq = .ok (txt, false))
    (hvalid : ∀ qq a, o.validatorResult qq a = .ok ())
    (ht1 : o.tid ∉ s1.turnOrder)
    (hv1 : o.vid ∉ s1.turnOrder)
    (htv : o.tid ≠ o.vid) :
    ∃ s2, exchangeTail settings o stale s1 q ctx = .completed s2 ∧
      countRole "teacher" s2 = countRole "teacher" s1 + 1 ∧
      (∃ extra, s2.turnOrder = s1.turnOrder ++ extra ∧ ∀ x ∈ extra, x = o.tid ∨ x = o.vid) ∧
      (∀ x, x ≠ o.tid → x ≠ o.vid → lookupTurn s2.turns x = lookupTurn s1.turns x) := by
  obtain ⟨txt, htr⟩ := hteacher ctx (jsField q.content)
  have hteacherObj : (⟨some "teacher", some "...", some true, none⟩ : TurnObj).role =
      some "teacher" := rfl
  set sA := addTurn s1 o.tid ⟨some "teacher", some "...", some true, none⟩ with hsA
  set sB := updateTurn sA o.tid ⟨none, some txt, some false, none⟩ with hsB
  have hcountA : countRole "teacher" sA = countRole "teacher" s1 + 1 := by
    have := countRole_extend "teacher" s1 sA o.tid ⟨some "teacher", some "...", some true, none⟩
      (addTurn_turnOrder s1 o.tid _) (lookup_addTurn_self s1 o.tid _)
      (fun x hx => lookup_addTurn_other s1 o.tid x _ hx) ht1
    simpa using this
  have hcountB : countRole "teacher" sB = countRole "teacher" s1 + 1 := by
    rw [hsB, countRole_updateTurn "teacher" sA o.tid _ rfl, hcountA]
  have horderB : sB.turnOrder = s1.turnOrder ++ [o.tid] := by
    rw [hsB, updateTurn_turnOrder, hsA, addTurn_turnOrder]
  have hlookB : ∀ x, x ≠ o.tid → lookupTurn sB.turns x = lookupTurn s1.turns x := by
    intro x hx
    rw [hsB, lookup_updateTurn_other sA o.tid x _ hx, hsA, lookup_addTurn_other s1 o.tid x _ hx]
  by_cases hdue : isValidationTurn stale settings.validatorFrequency = true
  · set sC := addTurn sB o.vid ⟨some "validator", some "Validating...", none, none⟩ with hsC
    set sD := updateTurn sC o.vid ⟨none, some "", none, none⟩ with hsD
    refine ⟨sD, ?_, ?_, ?_, ?_⟩
    · unfold exchangeTail
      rw [htr]
      simp only [Bool.false_eq_true, if_false, if_pos hdue, hvalid (jsField q.content) txt]
    · have hvmem : o.vid ∉ sB.turnOrder := by
        rw [horderB]
        intro hmem
        rcases List.mem_append.mp hmem with h1 | h1
        · exact hv1 h1
        · simp at h1
          exact htv h1.symm
      have hcountC : countRole "teacher" sC = countRole "teacher" sB := by
        have := countRole_extend "teacher" sB sC o.vid
          ⟨some "validator", some "Validating...", none, none⟩
          (addTurn_turnOrder sB o.vid _) (lookup_addTurn_self sB o.vid _)
          (fun x hx => lookup_addTurn_other sB o.vid x _ hx) hvmem
        simpa using this
      rw [hsD, countRole_updateTurn "teacher" sC o.vid _ rfl, hcountC, hcountB]
    · refine ⟨[o.tid, o.vid], ?_, by simp⟩
      rw [hsD, updateTurn_turnOrder, hsC, addTurn_turnOrder, horderB, List.append_assoc]
      rfl
    · intro x hxt hxv
      rw [hsD, lookup_updateTurn_other sC o.vid x _ hxv, hsC,
        lookup_addTurn_other sB o.vid x _ hxv, hlookB x hxt]
  · have hdue2 : isValidationTurn stale settings.validatorFrequency = false := by
      cases hd : isValidationTurn stale settings.validatorFrequency
      · rfl
      · exact absurd hd hdue
    refine ⟨sB, ?_, hcountB, ⟨[o.tid], horderB, by simp⟩, fun x hxt _ => hlookB x hxt⟩
    unfold exchangeTail
    rw [htr]
    simp only [Bool.false_eq_true, if_false, hdue2]

/-- The uuids an exchange may consume. -/
def oracleIds (o : ExchangeOracle) : List String :=
  [o.qid, o.tid, o.vid]

/-- A benign exchange: the student stream always yields at least one
delta, the teacher call succeeds without attaching a function call, the
validator call succeeds, and the three uuids are pairwise distinct. -/
def OracleOk (o : ExchangeOracle) : Prop :=
  (∀ c, o.studentDeltas c ≠ []) ∧
  (∀ c q, ∃ txt, o.teacherResult c q = .ok (txt, false)) ∧
  (∀ q a, o.validatorResult q a = .ok ()) ∧
  o.qid ≠ o.tid ∧ o.qid ≠ o.vid ∧ o.tid ≠ o.vid

theorem runAgentTurn_completes (settings : AgentSettings) (o : ExchangeOracle) (s : Store)
    (hlt : countTeacher s < settings.maxTurns)
    (hok : OracleOk o)
    (hfresh : ∀ x ∈ oracleIds o, x ∉ s.turnOrder) :
    ∃ s2, runAgentTurnModel settings o s = .completed s2 ∧
      countTeacher s2 = countTeacher s + 1 ∧
      (∃ extra, s2.turnOrder = s.turnOrder ++ extra ∧ ∀ x ∈ extra, x ∈ oracleIds o) ∧
      (∀ x, x ∉ oracleIds o → lookupTurn s2.turns x = lookupTurn s.turns x) := by
  obtain ⟨hdeltas, hteacher, hvalid, hqt, hqv, htv⟩ := hok
  obtain ⟨s1, q, ctx, hqp, hcount1, ⟨e1, horder1, he1⟩, hlook1⟩ :=
    questionPhase_spec settings o s (hfresh o.qid (by simp [oracleIds])) hdeltas
  have ht1 : o.tid ∉ s1.turnOrder := by
    rw [horder1]
    intro hmem
    rcases List.mem_append.mp hmem with h1 | h1
    · exact hfresh o.tid (by simp [oracleIds]) h1
    · exact hqt ((he1 o.tid h1).symm)
  have hv1 : o.vid ∉ s1.turnOrder := by
    rw [horder1]
    intro hmem
    rcases List.mem_append.mp hmem with h1 | h1
    · exact hfresh o.vid (by simp [oracleIds]) h1
    · exact hqv ((he1 o.vid h1).symm)
  obtain ⟨s2, htail, hcount2, ⟨e2, horder2, he2⟩, hlook2⟩ :=
    exchangeTail_completes settings o (countTeacher s) s1 q ctx hteacher hvalid ht1 hv1 htv
  refine ⟨s2, ?_, ?_, ?_, ?_⟩
  · unfold runAgentTurnModel
    rw [if_neg (by omega), hqp]
    exact htail
  · rw [countTeacher_eq_countRole s2, countTeacher_eq_countRole s, hcount2, hcount1]
  · refine ⟨e1 ++ e2, ?_, ?_⟩
    · rw [horder2, horder1, List.append_assoc]
    · intro x hx
      rcases List.mem_append.mp hx with h1 | h1
      · rw [he1 x h1]; simp [oracleIds]
      · rcases he2 x h1 with h2 | h2 <;> rw [h2] <;> simp [oracleIds]
  · intro x hx
    have hxq : x ≠ o.qid := fun he => hx (by simp [oracleIds, he])
    have hxt : x ≠ o.tid := fun he => hx (by simp [oracleIds, he])
    have hxv : x ≠ o.vid := fun he => hx (by simp [oracleIds, he])
    rw [hlook2 x hxt hxv, hlook1 x hxq]

theorem agentLoop_finishes (settings : AgentSettings) (oracles : Nat → ExchangeOracle) :
    ∀ (fuel k : Nat) (s : Store),
      countTeacher s ≤ settings.maxTurns →
      settings.maxTurns - countTeacher s < fuel →
      (∀ j, k ≤ j → j < k + fuel → OracleOk (oracles j)) →
      (∀ j, k ≤ j → j < k + fuel → ∀ x ∈ oracleIds (oracles j), x ∉ s.turnOrder) →
      (∀ i j, k ≤ i → i < k + fuel → k ≤ j → j < k + fuel → i ≠ j →
        ∀ x ∈ oracleIds (oracles i), x ∉ oracleIds (oracles j)) →
      ∃ s2, agentLoop settings oracles fuel k s = .finishedState s2 ∧
        countTeacher s2 = settings.maxTurns := by
  intro fuel
  induction fuel with
  | zero => intro k s h1 h2 _ _ _; omega
  | succ fuel ih =>
    intro k s hle hfuel hok hfresh hdisj
    by_cases heq : countTeacher s = settings.maxTurns
    · have hrun : runAgentTurnModel settings (oracles k) s = .finishedState s := by
        unfold runAgentTurnModel
        rw [if_pos (by omega)]
      refine ⟨s, ?_, heq⟩
      rw [agentLoop, hrun]
    · have hlt : countTeacher s < settings.maxTurns := lt_of_le_of_ne hle heq
      obtain ⟨s2, hrun, hcount, ⟨extra, horder, hex⟩, _⟩ :=
        runAgentTurn_completes settings (oracles k) s hlt
          (hok k (Nat.le_refl k) (by omega))
          (hfresh k (Nat.le_refl k) (by omega))
      have hstep : agentLoop settings oracles (fuel + 1) k s =
          agentLoop settings oracles fuel (k + 1) s2 := by
        rw [agentLoop, hrun]
      have hfresh2 : ∀ j, k + 1 ≤ j → j < k + 1 + fuel →
          ∀ x ∈ oracleIds (oracles j), x ∉ s2.turnOrder := by
        intro j hj1 hj2 x hx
        rw [horder]
        intro hmem
        rcases List.mem_append.mp hmem with h1 | h1
        · exact hfresh j (by omega) (by omega) x hx h1
        · exact hdisj j k (by omega) (by omega) (by omega) (by omega) (by omega) x hx (hex x h1)
      obtain ⟨s3, hloop, hc3⟩ := ih (k + 1) s2 (by omega) (by omega)
        (fun j hj1 hj2 => hok j (by omega) (by omega))
        hfresh2
        (fun i j hi1 hi2 hj1 hj2 hij =>
          hdisj i j (by omega) (by omega) (by omega) (by omega) hij)
      exact ⟨s3, hstep ▸ hloop, hc3⟩

/-!  ## Claims -/

/-- Oracle family for concrete runs: constant benign remote responses
and indexed uuids. -/
def sampleOracle (k : Nat) : ExchangeOracle :=
  { studentDeltas := fun _ => ["What is the key idea?"]
    teacherResult := fun _ _ => .ok ("Here is the explanation.", false)
    validatorResult := fun _ _ => .ok ()
    qid := "q" ++ toString k
    tid := "t" ++ toString k
    vid := "v" ++ toString k }

/-- C1: evaluation of the validation scheduler as implemented, at the
inputs where it contradicts the spec policy. The configured
every-single-turn frequency is the literal `every_turn`, whose split
yields the string `turn`; `parseInt` turns it into `NaN`, so the
scheduler is never due under it — in particular not on the first
answerer turn. Moreover `currentTeacherTurns` is read from the React
state captured before the exchange, so under `every_3_turns` the
scheduler is due when the pre-exchange count is 0, 3, 6 (answerer
counts 1, 4, 7 after the exchange) and not due at pre-exchange count 2
(answerer count 3). `disabled` is never due, as the spec says. The two
exchange-level runs show a first exchange on an empty store appending a
validator turn under `every_3_turns` and none under `every_turn`. -/
theorem C1_scheduler_code_eval :
    validatorFrequencyNum ValidatorFrequency.every_turn = none ∧
    isValidationTurn 0 ValidatorFrequency.every_turn = false ∧
    isValidationTurn 1 ValidatorFrequency.every_turn = false ∧
    isValidationTurn 2 ValidatorFrequency.every_3_turns = false ∧
    isValidationTurn 0 ValidatorFrequency.every_3_turns = true ∧
    (∀ c : Nat, isValidationTurn c ValidatorFrequency.disabled = false) ∧
    (∃ s2, runAgentTurnModel ⟨ContextWindow.medium, 10, ValidatorFrequency.every_3_turns⟩
        (sampleOracle 0) ⟨[], []⟩ = .completed s2 ∧ countRole "validator" s2 = 1) ∧
    (∃ s2, runAgentTurnModel ⟨ContextWindow.medium, 10, ValidatorFrequency.every_turn⟩
        (sampleOracle 0) ⟨[], []⟩ = .completed s2 ∧ countRole "validator" s2 = 0) := by
  refine ⟨by decide, by decide, by decide, by decide, by decide, ?_, ⟨_, rfl, rfl⟩,
    ⟨_, rfl, rfl⟩⟩
  intro c
  simp [isValidationTurn]

/-- The Context Windower as claim C2 reads it: like `getContextString`
but skipping every turn whose content is empty. -/
def getContextStringC2Spec (s : Store) (cw : ContextWindow) : String :=
  jsJoin "\n\n"
    (((((takeLastList (CONTEXT_WINDOW_SIZES cw) s.turnOrder).map
        (lookupTurn s.turns)).filterMap id).filter
          (fun t => !(decide (t.content = some "")))).map renderTurn)

/-- A store holding one turn whose content is the empty string. -/
def c2Store : Store :=
  ⟨[("t1", ⟨some "user", some "", some false, none⟩)], ["t1"]⟩

/-- C2 counterexample: on a store with a single empty-content turn the
implementation renders the turn (output `[user]` plus a newline),
whereas the claim says the turn is skipped (output empty). -/
theorem C2_counterexample :
    getContextString c2Store ContextWindow.short = "[user]\n" ∧
    getContextStringC2Spec c2Store ContextWindow.short = "" ∧
    getContextString c2Store ContextWindow.short ≠
      getContextStringC2Spec c2Store ContextWindow.short := by
  refine ⟨rfl, rfl, by decide⟩

/-- C2 (amended): on every store whose ordered ids all resolve in the
map, `getContextString` renders exactly the last `n` turns (n the
configured window size) in original insertion order, each as `[role]`,
newline, content — turns with empty content included — joined by blank
lines; the window is the final segment of the order of length
`min n (length order)`. (Ids that do not resolve are skipped; empty
content is not.) -/
theorem C2_windowed_context (s : Store) (cw : ContextWindow)
    (h : ∀ id ∈ s.turnOrder, (lookupTurn s.turns id).isSome) :
    getContextString s cw =
      jsJoin "\n\n" ((takeLastList (CONTEXT_WINDOW_SIZES cw) s.turnOrder).map
        (fun id => renderTurn ((lookupTurn s.turns id).getD TurnObj.emptyObj))) ∧
    (takeLastList (CONTEXT_WINDOW_SIZES cw) s.turnOrder).length =
      min (CONTEXT_WINDOW_SIZES cw) s.turnOrder.length ∧
    (∃ front, s.turnOrder = front ++ takeLastList (CONTEXT_WINDOW_SIZES cw) s.turnOrder) := by
  refine ⟨?_, takeLastList_length _ _, takeLastList_suffix _ _⟩
  unfold getContextString
  rw [filterMap_lookup_total (lookupTurn s.turns) _
    (fun id hid => h id (mem_of_mem_takeLastList _ _ _ hid)), List.map_map]
  rfl

/-- A consistent six-turn store for the C2 window scenario. -/
def c2SixStore : Store :=
  ⟨[("a1", ⟨some "user", some "c1", none, none⟩),
    ("a2", ⟨some "teacher", some "c2", none, none⟩),
    ("a3", ⟨some "user", some "c3", none, none⟩),
    ("a4", ⟨some "teacher", some "c4", none, none⟩),
    ("a5", ⟨some "user", some "c5", none, none⟩),
    ("a6", ⟨some "teacher", some "c6", none, none⟩)],
   ["a1", "a2", "a3", "a4", "a5", "a6"]⟩

/-- C2 witness: the amended statement instantiated on a six-turn store
with the short (size 4) window; only the last four turns appear, in
order. -/
theorem C2_windowed_context_witness :
    getContextString c2SixStore ContextWindow.short =
      jsJoin "\n\n" ((takeLastList 4 c2SixStore.turnOrder).map
        (fun id => renderTurn ((lookupTurn c2SixStore.turns id).getD TurnObj.emptyObj))) ∧
    (takeLastList 4 c2SixStore.turnOrder).length = 4 ∧
    getContextString c2SixStore ContextWindow.short =
      "[user]\nc3\n\n[teacher]\nc4\n\n[user]\nc5\n\n[teacher]\nc6" := by
  have h := C2_windowed_context c2SixStore ContextWindow.short (by decide)
  exact ⟨h.1, by decide, rfl⟩

/-- The result of updating an absent id on the empty store. -/
def c3Ghost : TurnObj := ⟨none, some "late update", none, none⟩

/-- C3 counterexample: updating an absent id is not a no-op on the turn
map — on the empty store it inserts a new entry under the id holding
exactly the partial fields. The order is untouched and no error is
raised, but the map differs from what it was before the call. -/
theorem C3_counterexample :
    (updateTurn ⟨[], []⟩ "ghost" c3Ghost).turnOrder = ([] : List String) ∧
    (updateTurn ⟨[], []⟩ "ghost" c3Ghost).turns = [("ghost", c3Ghost)] ∧
    (updateTurn ⟨[], []⟩ "ghost" c3Ghost).turns ≠ (⟨[], []⟩ : Store).turns := by
  refine ⟨rfl, rfl, by decide⟩

/-- C3 (amended): updating an id absent from the turn map raises no
error and leaves the turn order and every other map entry unchanged,
but inserts under the absent id a new entry holding exactly the given
partial fields (invisible to order-driven reads, since the order does
not reference it). -/
theorem C3_update_absent (s : Store) (id : String) (u : TurnObj)
    (h : lookupTurn s.turns id = none) :
    (updateTurn s id u).turnOrder = s.turnOrder ∧
    lookupTurn (updateTurn s id u).turns id = some u ∧
    (∀ x, x ≠ id → lookupTurn (updateTurn s id u).turns x = lookupTurn s.turns x) :=
  ⟨rfl, lookup_updateTurn_absent s id u h,
   fun x hx => lookup_updateTurn_other s id x u hx⟩

/-- A one-turn store for the C3 witness. -/
def c3Store : Store :=
  ⟨[("t1", ⟨some "user", some "hello", none, none⟩)], ["t1"]⟩

/-- C3 witness: the amended statement applied to a store that does not
contain the id `zz`. -/
theorem C3_update_absent_witness :
    (updateTurn c3Store "zz" c3Ghost).turnOrder = c3Store.turnOrder ∧
    lookupTurn (updateTurn c3Store "zz" c3Ghost).turns "zz" = some c3Ghost ∧
    lookupTurn (updateTurn c3Store "zz" c3Ghost).turns "t1" = lookupTurn c3Store.turns "t1" := by
  have h := C3_update_absent c3Store "zz" c3Ghost (by decide)
  exact ⟨h.1, h.2.1, h.2.2 "t1" (by decide)⟩

/-- C10: the gateway ignores the credential-status list entirely — for
any two status lists (or none at all), `invoke` produces the identical
outcome and the identical trace of remote attempts. The routing never
consults prior exhaustion. -/
theorem C10_status_independence {T : Type} (apiKeys : List String)
    (st1 st2 : Option (List ApiKeyStatus)) (apiCall : String → Except String T) :
    withApiKeyRotation apiKeys st1 apiCall = withApiKeyRotation apiKeys st2 apiCall := rfl

/-- C4: on any credential list splitting as `pre ++ k :: post` where
`k` is the first well-formed credential (everything before it is
malformed: empty after trimming, too short, or wrong prefix), if the
request function succeeds on `k` then `invoke` returns exactly that
result, the trace of remote attempts is the singleton `(k, index of
k)` — so the request function is never called with a malformed
credential and no further candidate is tried after the success. -/
theorem C4_first_wellformed_success {T : Type} (st : Option (List ApiKeyStatus))
    (apiCall : String → Except String T) (pre : List String) (k : String) (post : List String)
    (hk : wellFormedKey k = true) (hpre : ∀ c ∈ pre, wellFormedKey c = false)
    (v : T) (hcall : apiCall k = .ok v) :
    withApiKeyRotation (pre ++ k :: post) st apiCall = ⟨.ok v, [(k, pre.length)]⟩ := by
  have hsplit2 : trimPass k = true ∧ (!keyFailsValidation k) = true := by
    have h2 := hk
    unfold wellFormedKey at h2
    exact Bool.and_eq_true _ _ ▸ h2
  have hkTrim : trimPass k = true := hsplit2.1
  have hkVal : keyFailsValidation k = false := by
    have h3 := hsplit2.2
    cases hv : keyFailsValidation k
    · rfl
    · rw [hv] at h3; simp at h3
  unfold withApiKeyRotation
  rw [zipIdxFrom_append]
  simp only [Nat.zero_add]
  rw [List.filter_append]
  have hconsed : (zipIdxFrom pre.length (k :: post)).filter (fun p => p.1 != "" && jsTrim p.1 != "") =
      (k, pre.length) :: (zipIdxFrom (pre.length + 1) post).filter
        (fun p => p.1 != "" && jsTrim p.1 != "") := by
    show ((k, pre.length) :: zipIdxFrom (pre.length + 1) post).filter _ = _
    rw [List.filter_cons]
    simp only [trimPass] at hkTrim
    simp [hkTrim]
  rw [hconsed]
  have hne : ¬((zipIdxFrom 0 pre).filter (fun p => p.1 != "" && jsTrim p.1 != "") ++
      (k, pre.length) :: (zipIdxFrom (pre.length + 1) post).filter
        (fun p => p.1 != "" && jsTrim p.1 != "")).isEmpty = true := by
    simp
  rw [if_neg hne]
  have hskip : ∀ p ∈ (zipIdxFrom 0 pre).filter (fun p => p.1 != "" && jsTrim p.1 != ""),
      keyFailsValidation p.1 = true := by
    intro p hp
    have hmem := List.mem_filter.mp hp
    have hinpre : p.1 ∈ pre := mem_zipIdxFrom pre 0 p hmem.1
    have hwf := hpre p.1 hinpre
    unfold wellFormedKey at hwf
    have htp : trimPass p.1 = true := hmem.2
    cases hv : keyFailsValidation p.1
    · rw [htp, hv] at hwf; simp at hwf
    · rfl
  rw [rotationLoop_skips apiCall _ _ none 0 _ [] hskip,
    rotationLoop_cons_ok apiCall k pre.length _ none _ _ [] v hkVal hcall]
  rfl

/-- A well-formed credential for the gateway witnesses. -/
def c4Key : String := "AIzaWITNESSKEY00000000000000XXXXXX"

/-- Request function for the C4 witness: succeeds only on `c4Key`. -/
def c4Call : String → Except String Nat :=
  fun key => if key = c4Key then .ok 7 else .error "remote failure"

/-- C4 witness: credentials `["", "short", c4Key, c4Key2]`; the empty
and short entries are skipped locally, the first well-formed key
succeeds, the trailing candidate is never tried. -/
theorem C4_first_wellformed_success_witness :
    withApiKeyRotation ["", "short", c4Key, "AIzaTRAILINGKEY0000000000000XXXXXX"] none c4Call =
      ⟨.ok 7, [(c4Key, 2)]⟩ :=
  C4_first_wellformed_success none c4Call ["", "short"] c4Key
    ["AIzaTRAILINGKEY0000000000000XXXXXX"] (by decide) (by decide) 7 rfl

/-- C5 counterexample: the empty credential list vacuously satisfies
“every candidate that is non-empty after trimming fails the local
format check”, yet `invoke` raises the no-credential-configured error,
not the all-credentials-invalid one. -/
theorem C5_counterexample :
    withApiKeyRotation ([] : List String) none (fun _ => (.error "e" : Except String Unit)) =
      ⟨.error (.apiKeyError noKeyMsg), []⟩ ∧
    noKeyMsg ≠ allInvalidMsg := by
  refine ⟨rfl, by decide⟩

/-- C5 (amended): on every credential list with at least one candidate
that is non-empty after trimming, if every such candidate fails the
local format check then `invoke` raises the distinct
all-credentials-invalid error (`ApiKeyError`) and the request function
is never called: zero remote attempts. -/
theorem C5_all_invalid {T : Type} (st : Option (List ApiKeyStatus))
    (apiCall : String → Except String T) (keys : List String)
    (hsome : ∃ k ∈ keys, trimPass k = true)
    (hall : ∀ k ∈ keys, trimPass k = true → keyFailsValidation k = true) :
    withApiKeyRotation keys st apiCall = ⟨.error (.apiKeyError allInvalidMsg), []⟩ := by
  unfold withApiKeyRotation
  obtain ⟨k, hkmem, hktrim⟩ := hsome
  obtain ⟨i, hkidx⟩ := zipIdxFrom_mem_of_mem keys 0 k hkmem
  have hkfil : (k, i) ∈ (zipIdxFrom 0 keys).filter (fun p => p.1 != "" && jsTrim p.1 != "") := by
    apply List.mem_filter.mpr
    refine ⟨hkidx, ?_⟩
    simp only [trimPass] at hktrim
    exact hktrim
  have hne : ¬((zipIdxFrom 0 keys).filter
      (fun p => p.1 != "" && jsTrim p.1 != "")).isEmpty = true := by
    intro he
    rw [List.isEmpty_iff] at he
    rw [he] at hkfil
    simp at hkfil
  rw [if_neg hne]
  have hskip : ∀ p ∈ (zipIdxFrom 0 keys).filter (fun p => p.1 != "" && jsTrim p.1 != ""),
      keyFailsValidation p.1 = true := by
    intro p hp
    have hmem := List.mem_filter.mp hp
    exact hall p.1 (mem_zipIdxFrom keys 0 p hmem.1) hmem.2
  have := rotationLoop_skips apiCall
    ((zipIdxFrom 0 keys).filter (fun p => p.1 != "" && jsTrim p.1 != "")) [] none 0
    ((zipIdxFrom 0 keys).filter (fun p => p.1 != "" && jsTrim p.1 != "")).length [] hskip
  rw [List.append_nil] at this
  rw [this]
  show rotationLoop apiCall [] none _ _ [] = _
  rw [rotationLoop]
  have hlen : 0 < ((zipIdxFrom 0 keys).filter
      (fun p => p.1 != "" && jsTrim p.1 != "")).length := by
    exact List.length_pos_of_mem hkfil
  rw [if_pos ⟨by omega, by omega⟩]

/-- C5 witness: credentials `["short", " "]` — the blank entry is
dropped by trimming, the remaining candidate fails the format check,
and the gateway reports all credentials invalid with no remote call. -/
theorem C5_all_invalid_witness :
    withApiKeyRotation ["short", " "] none c4Call =
      ⟨.error (.apiKeyError allInvalidMsg), []⟩ :=
  C5_all_invalid none c4Call ["short", " "] ⟨"short", by decide, by decide⟩ (by decide)

/-- C6: when at least one candidate passes the local format check and
every remotely attempted candidate fails, `invoke` raises a plain error
whose message embeds the last attempted credential redacted to its
first four and last four characters together with the underlying error
message; the trace of attempts is exactly the format-valid candidates
in order (malformed ones are skipped without a remote call). -/
theorem C6_all_remote_fail {T : Type} (st : Option (List ApiKeyStatus))
    (apiCall : String → Except String T) (keys : List String) (emsg : String → String)
    (hne : validCandidates keys ≠ [])
    (hfail : ∀ p ∈ validCandidates keys, apiCall p.1 = .error (emsg p.1)) :
    ∃ lk li, (validCandidates keys).getLast? = some (lk, li) ∧
      withApiKeyRotation keys st apiCall =
        ⟨.error (.jsError (rotationFailMsg li lk (emsg lk))), validCandidates keys⟩ := by
  unfold withApiKeyRotation
  have hne2 : ¬((zipIdxFrom 0 keys).filter
      (fun p => p.1 != "" && jsTrim p.1 != "")).isEmpty = true := by
    intro he
    rw [List.isEmpty_iff] at he
    apply hne
    unfold validCandidates trimPass
    rw [he]
    rfl
  rw [if_neg hne2]
  have hval : validCandidates keys = ((zipIdxFrom 0 keys).filter
      (fun p => p.1 != "" && jsTrim p.1 != "")).filter (fun p => !keyFailsValidation p.1) := rfl
  obtain ⟨lk, li, h1, h2⟩ := rotationLoop_allfail apiCall emsg
    ((zipIdxFrom 0 keys).filter (fun p => p.1 != "" && jsTrim p.1 != "")) none 0
    ((zipIdxFrom 0 keys).filter (fun p => p.1 != "" && jsTrim p.1 != "")).length []
    (fun p hp hv => hfail p (by rw [hval]; exact List.mem_filter.mpr ⟨hp, by simp [hv]⟩))
    (by rw [← hval]; exact hne)
  refine ⟨lk, li, ?_, ?_⟩
  · rw [hval]; exact h1
  · rw [h2, hval]
    rfl

/-- The well-formed key of the spec scenario for C6. -/
def c6Key : String := "AIzaVALIDLOOKINGKEYXXXXXXXXXXXXXXXX"

/-- Request function for the C6 witness: every call fails remotely. -/
def c6Call : String → Except String Unit :=
  fun _ => .error "Network error"

/-- C6 witness: the spec scenario `["short", c6Key]` with a remote
failure — the gateway skips the short key locally, attempts only the
well-formed key at index 1, and raises the error that embeds the
redacted key (`AIza...XXXX`) and the underlying message. -/
theorem C6_all_remote_fail_witness :
    withApiKeyRotation ["short", c6Key] none c6Call =
      ⟨.error (.jsError (rotationFailMsg 1 c6Key "Network error")), [(c6Key, 1)]⟩ ∧
    rotationFailMsg 1 c6Key "Network error" =
      "API call failed using key at index 1 (key: AIza...XXXX). Raw Error: Network error" := by
  obtain ⟨lk, li, h1, h2⟩ := C6_all_remote_fail none c6Call ["short", c6Key]
    (fun _ => "Network error") (by decide) (fun p _ => rfl)
  have hlast : (validCandidates ["short", c6Key]).getLast? = some (c6Key, 1) := by decide
  rw [hlast] at h1
  have hlk : c6Key = lk := congrArg (fun o => (o.getD ("", 0)).1) h1
  have hli : 1 = li := congrArg (fun o => (o.getD ("", 0)).2) h1
  subst hlk
  subst hli
  refine ⟨?_, by decide⟩
  rw [h2]
  have hcands : validCandidates ["short", c6Key] = [(c6Key, 1)] := by decide
  rw [hcands]

/-- C7: the streaming assembler on an empty delta sequence returns null
and creates no Turn (the store is unchanged); on a non-empty sequence
it appends exactly one new turn id to the order, hands back the turn as
created — initial content the first delta, `isStreaming` true — leaves
every other map entry untouched, and after the sequence ends the
stored turn has content equal to the concatenation of all deltas with
`isStreaming` false; `fullContent` is that same concatenation. -/
theorem C7_streaming_assembler (s : Store) (id : String) (td : TurnObj)
    (deltas : List String) :
    (deltas = [] → createTurnFromStream s id td deltas = (s, none, "")) ∧
    (∀ d rest, deltas = d :: rest →
      (createTurnFromStream s id td deltas).1.turnOrder = s.turnOrder ++ [id] ∧
      (createTurnFromStream s id td deltas).2.1 =
        some { td with content := some d, isStreaming := some true } ∧
      (createTurnFromStream s id td deltas).2.2 = concatDeltas deltas ∧
      lookupTurn (createTurnFromStream s id td deltas).1.turns id =
        some { td with content := some (concatDeltas deltas), isStreaming := some false } ∧
      (∀ x, x ≠ id → lookupTurn (createTurnFromStream s id td deltas).1.turns x =
        lookupTurn s.turns x)) := by
  constructor
  · intro h
    subst h
    rfl
  · intro d rest h
    subst h
    exact createTurnFromStream_cons s id td d rest

/-- C7 witness: the empty sequence yields null and an unchanged store;
the sequence `["a","b","c"]` yields one turn created with content "a"
and `isStreaming` true, stored finally with content "abc" and
`isStreaming` false. -/
theorem C7_streaming_assembler_witness :
    createTurnFromStream ⟨[], []⟩ "s1" ⟨some "student", none, none, none⟩ [] =
      (⟨[], []⟩, none, "") ∧
    (createTurnFromStream ⟨[], []⟩ "s1" ⟨some "student", none, none, none⟩
      ["a", "b", "c"]).1.turnOrder = ["s1"] ∧
    (createTurnFromStream ⟨[], []⟩ "s1" ⟨some "student", none, none, none⟩
      ["a", "b", "c"]).2.1 = some ⟨some "student", some "a", some true, none⟩ ∧
    (createTurnFromStream ⟨[], []⟩ "s1" ⟨some "student", none, none, none⟩
      ["a", "b", "c"]).2.2 = "abc" ∧
    lookupTurn (createTurnFromStream ⟨[], []⟩ "s1" ⟨some "student", none, none, none⟩
      ["a", "b", "c"]).1.turns "s1" = some ⟨some "student", some "abc", some false, none⟩ := by
  have h0 := C7_streaming_assembler ⟨[], []⟩ "s1" ⟨some "student", none, none, none⟩ []
  have h := C7_streaming_assembler ⟨[], []⟩ "s1" ⟨some "student", none, none, none⟩
    ["a", "b", "c"]
  obtain ⟨h1, h2, h3, h4, h5⟩ := h.2 "a" ["b", "c"] rfl
  refine ⟨h0.1 rfl, h1, h2, ?_, ?_⟩
  · rw [h3]
    rfl
  · rw [h4]
    rfl

/-- C9: for every store and every user-role turn present in it, resend
truncates both the order and the map to exactly the ids strictly
preceding the target — the target itself and everything from it onward
are gone — and emits the target content (with its attachments,
defaulted to the empty list) as the payload that is resubmitted as a
new user message. -/
theorem C9_resend_truncates (s : Store) (tid : String) (t : TurnObj) (i : Nat)
    (hl : lookupTurn s.turns tid = some t)
    (hrole : t.role = some "user")
    (hidx : jsFindIndex (fun oid => oid = tid) s.turnOrder = some i) :
    (handleResend s tid).1.turnOrder = s.turnOrder.take i ∧
    tid ∉ s.turnOrder.take i ∧
    (∀ x, lookupTurn (handleResend s tid).1.turns x =
      if x ∈ s.turnOrder.take i then lookupTurn s.turns x else none) ∧
    lookupTurn (handleResend s tid).1.turns tid = none ∧
    (handleResend s tid).2 = some (t.content, t.attachments.getD []) := by
  have hnotmem : tid ∉ s.turnOrder.take i := by
    intro hmem
    have := jsFindIndex_take (fun oid => oid = tid) s.turnOrder i hidx tid hmem
    simp at this
  have hres : handleResend s tid =
      ({ turns := buildTruncatedTurns s.turns (s.turnOrder.take i),
         turnOrder := s.turnOrder.take i },
       some (t.content, t.attachments.getD [])) := by
    unfold handleResend
    simp only [hl]
    rw [hrole, if_pos rfl]
    simp only [hidx]
  rw [hres]
  refine ⟨rfl, hnotmem, ?_, ?_, rfl⟩
  · intro x
    exact lookup_buildTruncatedTurns s.turns (s.turnOrder.take i) x
  · rw [lookup_buildTruncatedTurns]
    simp [hnotmem]

/-- The `[q1, a1, q2]` store of the C9 scenario. -/
def c9Store : Store :=
  ⟨[("q1", ⟨some "user", some "hello", none, none⟩),
    ("a1", ⟨some "teacher", some "ans", some false, none⟩),
    ("q2", ⟨some "user", some "again", none, none⟩)],
   ["q1", "a1", "q2"]⟩

/-- C9 witness: resending the first user turn of `[q1, a1, q2]` leaves
an empty order, drops both the target and the later turns from the
map, and emits the target content as the payload. -/
theorem C9_resend_truncates_witness :
    (handleResend c9Store "q1").1.turnOrder = [] ∧
    lookupTurn (handleResend c9Store "q1").1.turns "a1" = none ∧
    lookupTurn (handleResend c9Store "q1").1.turns "q1" = none ∧
    (handleResend c9Store "q1").2 = some (some "hello", []) := by
  obtain ⟨h1, h2, h3, h4, h5⟩ := C9_resend_truncates c9Store "q1"
    ⟨some "user", some "hello", none, none⟩ 0 (by decide) (by decide) (by decide)
  refine ⟨by rw [h1]; rfl, ?_, h4, h5⟩
  rw [h3 "a1"]
  rfl

/-- C8: under benign exchanges (non-empty student streams, successful
teacher calls without function calls, successful validator calls,
fresh pairwise-distinct uuids) and auto-continue, the agent loop
reaches `finished` with the answerer-turn count exactly equal to
`maxTurns` — never before (each completed exchange adds exactly one
answerer turn and the loop keeps going below the bound) and never after
(the entry guard fires as soon as the count reaches the bound) — and
once the count equals `maxTurns` no exchange produces any further turn:
`runAgentTurn` returns `finished` leaving the store untouched. -/
theorem C8_loop_terminates (settings : AgentSettings) (oracles : Nat → ExchangeOracle)
    (fuel k : Nat) (s : Store)
    (hmax : 1 ≤ settings.maxTurns)
    (hle : countTeacher s ≤ settings.maxTurns)
    (hfuel : settings.maxTurns - countTeacher s < fuel)
    (hok : ∀ j, k ≤ j → j < k + fuel → OracleOk (oracles j))
    (hfresh : ∀ j, k ≤ j → j < k + fuel → ∀ x ∈ oracleIds (oracles j), x ∉ s.turnOrder)
    (hdisj : ∀ i j, k ≤ i → i < k + fuel → k ≤ j → j < k + fuel → i ≠ j →
      ∀ x ∈ oracleIds (oracles i), x ∉ oracleIds (oracles j)) :
    ∃ s2, agentLoop settings oracles fuel k s = .finishedState s2 ∧
      countTeacher s2 = settings.maxTurns ∧
      (∀ o2, runAgentTurnModel settings o2 s2 = .finishedState s2) := by
  obtain ⟨s2, h1, h2⟩ := agentLoop_finishes settings oracles fuel k s hle hfuel hok hfresh hdisj
  refine ⟨s2, h1, h2, fun o2 => ?_⟩
  unfold runAgentTurnModel
  rw [if_pos (by omega)]

/-- The settings of the C8 witness run: one answerer turn at most. -/
def c8Settings : AgentSettings :=
  ⟨ContextWindow.medium, 1, ValidatorFrequency.disabled⟩

/-- The store the C8 witness run finishes with. -/
def c8FinalStore : Store :=
  ⟨[("q0", ⟨some "student", some "What is the key idea?", some false, none⟩),
    ("t0", ⟨some "teacher", some "Here is the explanation.", some false, none⟩)],
   ["q0", "t0"]⟩

theorem sampleOracle_ok_small (k : Nat) (hk : k < 2) : OracleOk (sampleOracle k) := by
  interval_cases k <;>
    exact ⟨fun c => by simp [sampleOracle], fun c q => ⟨"Here is the explanation.", rfl⟩,
      fun q a => rfl, by decide, by decide, by decide⟩

/-- C8 witness: with `maxTurns = 1` the loop started on the empty store
finishes after exactly one exchange, the final store holds exactly one
answerer turn, and a further exchange on it is a no-op `finished`. -/
theorem C8_loop_terminates_witness :
    agentLoop c8Settings sampleOracle 2 0 ⟨[], []⟩ = .finishedState c8FinalStore ∧
    countTeacher c8FinalStore = 1 ∧
    runAgentTurnModel c8Settings (sampleOracle 2) c8FinalStore = .finishedState c8FinalStore := by
  obtain ⟨s2, h1, h2, h3⟩ := C8_loop_terminates c8Settings sampleOracle 2 0 ⟨[], []⟩
    (by decide) (by decide) (by decide)
    (fun j h0 hj => sampleOracle_ok_small j (by omega))
    (fun j _ _ x _ => List.not_mem_nil x)
    (fun i j hi0 hi2 hj0 hj2 hij => by
      have hi : i < 2 := by omega
      have hj : j < 2 := by omega
      interval_cases i <;> interval_cases j <;>
        first
          | exact absurd rfl hij
          | decide)
  have he : agentLoop c8Settings sampleOracle 2 0 ⟨[], []⟩ = .finishedState c8FinalStore := rfl
  rw [he] at h1
  injection h1 with hs
  subst hs
  exact ⟨he, h2, h3 (sampleOracle 2)⟩

end SocraticCore
